import Mathlib

/-!
Verification of the surface-map synthesizer of `src/flat.tsx`
(`generateGlassMaps`, lines 93-271).

The pipeline is embedded shallowly: JS double arithmetic is modelled by
exact real arithmetic, the freshly randomized 512-entry permutation table
is an explicit function parameter `perm : ℕ → ℕ`, the `ImageData` pixel
buffer is a `List ℤ` of bytes in row-major RGBA order, and the empty
result (`surfaceUrl` set to the empty string) is `none`.  The host canvas
API (`document.createElement`, `getContext`, `toDataURL`) is external to
the synthesizer per the spec; the buffer models the `ImageData` contents
that the canvas encodes.
-/

namespace LiquidGlass

noncomputable section

/-- Shape selector, source type `GlassShape` (src/flat.tsx line 87). -/
inductive GlassShape
  | rect
  | squircle
deriving DecidableEq

/-- Profile selector, source type `GlassShapeProfile` (line 86). -/
inductive GlassShapeProfile
  | convex
  | concave
  | flat
  | liquid
deriving DecidableEq

/-- Quintic fade curve of the noise generator (line 130). -/
def fade (t : ℝ) : ℝ := t * t * t * (t * (t * 6 - 15) + 10)

/-- Linear interpolation helper of the noise generator (line 131). -/
def lerp (t a b : ℝ) : ℝ := a + t * (b - a)

/-- Gradient selection of the noise generator (lines 132-137); the JS
bitwise operations on the hash are ℕ bitwise operations here. -/
def grad (hash : ℕ) (x y : ℝ) : ℝ :=
  let h := hash &&& 15
  let u := if h < 8 then x else y
  let v := if h < 4 then y else if h = 12 ∨ h = 14 then x else 0
  (if h &&& 1 = 0 then u else -u) + (if h &&& 2 = 0 then v else -v)

/-- Perlin-style 2D noise over the permutation table (lines 138-148).
On a JS double, `Math.floor(x) & 255` equals `(⌊x⌋ % 256).toNat` (the
wrap is two's-complement, matching `Int.emod`'s nonnegative result). -/
def noise2d (perm : ℕ → ℕ) (x y : ℝ) : ℝ :=
  let X := (⌊x⌋ % 256).toNat
  let Y := (⌊y⌋ % 256).toNat
  let xf := x - ⌊x⌋
  let yf := y - ⌊y⌋
  let u := fade xf
  let v := fade yf
  let A := perm X + Y
  let B := perm (X + 1) + Y
  lerp v (lerp u (grad (perm A) xf yf) (grad (perm B) (xf - 1) yf))
    (lerp u (grad (perm (A + 1)) xf (yf - 1)) (grad (perm (B + 1)) (xf - 1) (yf - 1)))

/-- Rounded-box SDF (lines 179-184) including the safe radius clamp of
line 122; `tx ty` are the (possibly warped) sample coordinates. -/
def rectSDF (w h : ℕ) (radius tx ty : ℝ) : ℝ :=
  let r := min radius (min (w : ℝ) (h : ℝ) / 2)
  let dx := |tx - (w : ℝ) / 2| - ((w : ℝ) / 2 - r)
  let dy := |ty - (h : ℝ) / 2| - ((h : ℝ) / 2 - r)
  Real.sqrt (max dx 0 ^ 2 + max dy 0 ^ 2) + min (max dx dy) 0 - r

/-- Squircle (superellipse, exponent 4) SDF approximation (lines 169-177). -/
def squircleSDF (w h : ℕ) (tx ty : ℝ) : ℝ :=
  let nx := (tx - (w : ℝ) / 2) / ((w : ℝ) / 2)
  let ny := (ty - (h : ℝ) / 2) / ((h : ℝ) / 2)
  ((|nx| ^ 4 + |ny| ^ 4) ^ (0.25 : ℝ) - 1) * (min (w : ℝ) (h : ℝ) / 2)

/-- Shape dispatch of lines 168-185. -/
def distAt (w h : ℕ) (radius : ℝ) (shape : GlassShape) (tx ty : ℝ) : ℝ :=
  if shape = .squircle then squircleSDF w h tx ty else rectSDF w h radius tx ty

/-- Distance-to-height profile map (lines 191-200). -/
def heightRaw (profile : GlassShapeProfile) (dist bezel : ℝ) : ℝ :=
  if dist < -bezel then 1
  else if 1 < dist then 0
  else
    let t := max 0 (min 1 (-dist / bezel))
    if profile = .flat then t
    else if profile = .concave then 1 - t ^ 2
    else 1 - (1 - t) ^ 3

/-- Liquid surface-noise perturbation and final clamp (lines 202-207);
`nzv` is the sampled `noise2d(x*0.015, y*0.015)` value. -/
def heightStored (profile : GlassShapeProfile) (dist bezel nzv : ℝ) : ℝ :=
  let hgt := heightRaw profile dist bezel
  let hgt2 := if profile = .liquid ∧ 0.8 < hgt then hgt + nzv * 0.03 else hgt
  max 0 (min 1 hgt2)

/-- One pixel of the pre-erosion height field: the stage 1-2 loop body
(lines 150-209), including the turbulence warp of lines 159-166. -/
def heightMapInit (w h : ℕ) (radius bezel : ℝ) (shape : GlassShape)
    (profile : GlassShapeProfile) (warp : ℝ) (perm : ℕ → ℕ) (x y : ℕ) : ℝ :=
  let warpAmp := warp * (if profile = .liquid then 15 else 8)
  let n := noise2d perm ((x : ℝ) * 0.02) ((y : ℝ) * 0.02)
  let tx := if 0 < warp ∨ profile = .liquid then (x : ℝ) + n * warpAmp else (x : ℝ)
  let ty := if 0 < warp ∨ profile = .liquid then (y : ℝ) + n * warpAmp else (y : ℝ)
  heightStored profile (distAt w h radius shape tx ty) bezel
    (noise2d perm ((x : ℝ) * 0.015) ((y : ℝ) * 0.015))

/-- Blur kernel radius (line 213). -/
def kernelOf (tension : ℝ) : ℤ := max 1 ⌈tension⌉

/-- Edge clamp of a sample index (lines 219 and 231). -/
def clampIdx (n : ℕ) (i : ℤ) : ℕ := (min ((n : ℤ) - 1) (max 0 i)).toNat

/-- Horizontal blur pass (lines 215-225); the divisor `weight` is the
loop-iteration count, i.e. the cardinality of the offset range. -/
def blurH (w : ℕ) (k : ℤ) (f : ℕ → ℕ → ℝ) (x y : ℕ) : ℝ :=
  (∑ j ∈ Finset.Icc (-k) k, f (clampIdx w ((x : ℤ) + j)) y) / ((Finset.Icc (-k) k).card : ℝ)

/-- Vertical blur pass (lines 227-237), reading the horizontal result. -/
def blurV (h : ℕ) (k : ℤ) (f : ℕ → ℕ → ℝ) (x y : ℕ) : ℝ :=
  (∑ j ∈ Finset.Icc (-k) k, f x (clampIdx h ((y : ℤ) + j))) / ((Finset.Icc (-k) k).card : ℝ)

/-- Erosion stage (lines 211-238): separable blur, horizontal pass into a
temporary buffer then vertical pass, skipped entirely unless `0 < tension`. -/
def erode (w h : ℕ) (tension : ℝ) (f : ℕ → ℕ → ℝ) : ℕ → ℕ → ℝ :=
  if 0 < tension then blurV h (kernelOf tension) (blurH w (kernelOf tension) f) else f

/-- The height field after the erosion stage, read by the packing loop. -/
def finalHeight (w h : ℕ) (radius bezel : ℝ) (shape : GlassShape)
    (profile : GlassShapeProfile) (tension warp : ℝ) (perm : ℕ → ℕ) : ℕ → ℕ → ℝ :=
  erode w h tension (heightMapInit w h radius bezel shape profile warp perm)

/-- Fixed gradient steepness (line 243). -/
def steepness : ℝ := 4

/-- The normal length `len` (line 258). -/
def nlen (dx dy : ℝ) : ℝ := Real.sqrt (dx * dx + dy * dy + 1)

/-- A `Uint8ClampedArray` store: clamp to [0, 255] and round to the
nearest integer, ties to even. -/
def toByte (v : ℝ) : ℤ :=
  let c := min 255 (max 0 v)
  if c - ⌊c⌋ < 1 / 2 then ⌊c⌋
  else if 1 / 2 < c - ⌊c⌋ then ⌊c⌋ + 1
  else if ⌊c⌋ % 2 = 0 then ⌊c⌋ else ⌊c⌋ + 1

/-- One RGBA pixel of the output buffer. -/
structure Pixel where
  r : ℤ
  g : ℤ
  b : ℤ
  a : ℤ

/-- Normal estimation and channel packing for one pixel (lines 245-266).
In ℕ, `x - 1` is truncated subtraction, i.e. exactly `Math.max(0, x - 1)`. -/
def packPixel (w h : ℕ) (f : ℕ → ℕ → ℝ) (x y : ℕ) : Pixel :=
  let x0 := x - 1
  let x1 := min (w - 1) (x + 1)
  let y0 := y - 1
  let y1 := min (h - 1) (y + 1)
  let hVal := f x y
  let dx := (f x0 y - f x1 y) * steepness
  let dy := (f x y0 - f x y1) * steepness
  { r := toByte ((dx / nlen dx dy * 0.5 + 0.5) * 255)
    g := toByte ((dy / nlen dx dy * 0.5 + 0.5) * 255)
    b := toByte (hVal * 255)
    a := if 0.01 < hVal then 255 else 0 }

/-- Serialization of one pixel into the byte buffer. -/
def pixelBytes (p : Pixel) : List ℤ := [p.r, p.g, p.b, p.a]

/-- The `ImageData` byte buffer, row-major RGBA (loop of lines 245-267). -/
def renderBuffer (w h : ℕ) (f : ℕ → ℕ → ℝ) : List ℤ :=
  (List.range h).flatMap fun y => (List.range w).flatMap fun x => pixelBytes (packPixel w h f x y)

/-- The synthesizer `generateGlassMaps` (lines 93-271).  `none` models the
empty result `{ surfaceUrl: '' }` returned for non-positive dimensions;
`some buf` models the populated `ImageData` handed to the canvas encoder. -/
def generateGlassMaps (width height : ℤ) (radius bezel : ℝ) (shape : GlassShape)
    (profile : GlassShapeProfile) (tension warp : ℝ) (perm : ℕ → ℕ) : Option (List ℤ) :=
  if width ≤ 0 ∨ height ≤ 0 then none
  else some (renderBuffer width.toNat height.toNat
    (finalHeight width.toNat height.toNat radius bezel shape profile tension warp perm))

/-! ### Helper lemmas -/

lemma clamp01_nonneg (z : ℝ) : 0 ≤ max 0 (min 1 z) := le_max_left 0 _

lemma clamp01_le_one (z : ℝ) : max 0 (min 1 z) ≤ 1 :=
  max_le (by norm_num) (min_le_left 1 z)

lemma heightStored_eq_clamp {profile : GlassShapeProfile} (hp : profile ≠ .liquid)
    (dist bezel nzv : ℝ) :
    heightStored profile dist bezel nzv = max 0 (min 1 (heightRaw profile dist bezel)) := by
  unfold heightStored
  simp [hp]

lemma heightStored_mem (profile : GlassShapeProfile) (dist bezel nzv : ℝ) :
    0 ≤ heightStored profile dist bezel nzv ∧ heightStored profile dist bezel nzv ≤ 1 := by
  unfold heightStored
  exact ⟨clamp01_nonneg _, clamp01_le_one _⟩

lemma heightMapInit_mem (w h : ℕ) (radius bezel : ℝ) (shape : GlassShape)
    (profile : GlassShapeProfile) (warp : ℝ) (perm : ℕ → ℕ) (x y : ℕ) :
    0 ≤ heightMapInit w h radius bezel shape profile warp perm x y ∧
      heightMapInit w h radius bezel shape profile warp perm x y ≤ 1 := by
  unfold heightMapInit
  exact heightStored_mem _ _ _ _

lemma kernelOf_pos (tension : ℝ) : 1 ≤ kernelOf tension := le_max_left 1 _

lemma card_Icc_kernel (tension : ℝ) :
    (((Finset.Icc (-(kernelOf tension)) (kernelOf tension)).card : ℤ)) =
      2 * kernelOf tension + 1 := by
  have hk := kernelOf_pos tension
  rw [Int.card_Icc]
  omega

lemma card_Icc_kernel_pos (tension : ℝ) :
    0 < (((Finset.Icc (-(kernelOf tension)) (kernelOf tension)).card : ℝ)) := by
  have h := card_Icc_kernel tension
  have hk := kernelOf_pos tension
  have : (2 : ℤ) * kernelOf tension + 1 ≤ ((Finset.Icc (-(kernelOf tension)) (kernelOf tension)).card : ℤ) := by
    rw [h]
  have hpos : (0 : ℤ) < ((Finset.Icc (-(kernelOf tension)) (kernelOf tension)).card : ℤ) := by omega
  exact_mod_cast hpos

lemma blurH_mem (w : ℕ) (tension : ℝ) (f : ℕ → ℕ → ℝ)
    (hf : ∀ a b, 0 ≤ f a b ∧ f a b ≤ 1) (x y : ℕ) :
    0 ≤ blurH w (kernelOf tension) f x y ∧ blurH w (kernelOf tension) f x y ≤ 1 := by
  unfold blurH
  have hcard := card_Icc_kernel_pos tension
  constructor
  · exact div_nonneg (Finset.sum_nonneg fun j _ => (hf _ _).1) hcard.le
  · rw [div_le_one hcard]
    calc (∑ j ∈ Finset.Icc (-(kernelOf tension)) (kernelOf tension),
            f (clampIdx w ((x : ℤ) + j)) y)
        ≤ (Finset.Icc (-(kernelOf tension)) (kernelOf tension)).card • (1 : ℝ) :=
          Finset.sum_le_card_nsmul _ _ 1 fun j _ => (hf _ _).2
      _ = ((Finset.Icc (-(kernelOf tension)) (kernelOf tension)).card : ℝ) := by
          rw [nsmul_eq_mul, mul_one]

lemma blurV_mem (h : ℕ) (tension : ℝ) (f : ℕ → ℕ → ℝ)
    (hf : ∀ a b, 0 ≤ f a b ∧ f a b ≤ 1) (x y : ℕ) :
    0 ≤ blurV h (kernelOf tension) f x y ∧ blurV h (kernelOf tension) f x y ≤ 1 := by
  unfold blurV
  have hcard := card_Icc_kernel_pos tension
  constructor
  · exact div_nonneg (Finset.sum_nonneg fun j _ => (hf _ _).1) hcard.le
  · rw [div_le_one hcard]
    calc (∑ j ∈ Finset.Icc (-(kernelOf tension)) (kernelOf tension),
            f x (clampIdx h ((y : ℤ) + j)))
        ≤ (Finset.Icc (-(kernelOf tension)) (kernelOf tension)).card • (1 : ℝ) :=
          Finset.sum_le_card_nsmul _ _ 1 fun j _ => (hf _ _).2
      _ = ((Finset.Icc (-(kernelOf tension)) (kernelOf tension)).card : ℝ) := by
          rw [nsmul_eq_mul, mul_one]

lemma erode_mem (w h : ℕ) (tension : ℝ) (f : ℕ → ℕ → ℝ)
    (hf : ∀ a b, 0 ≤ f a b ∧ f a b ≤ 1) (x y : ℕ) :
    0 ≤ erode w h tension f x y ∧ erode w h tension f x y ≤ 1 := by
  unfold erode
  split
  · exact blurV_mem h tension _ (fun a b => blurH_mem w tension f hf a b) x y
  · exact hf x y

lemma length_flatMap_const {β : Type} (g : ℕ → List β) (k n : ℕ)
    (hg : ∀ j, (g j).length = k) : ((List.range n).flatMap g).length = n * k := by
  have hcg : List.length ∘ g = fun _ => k := funext hg
  rw [List.length_flatMap, hcg, List.map_const', List.sum_replicate, smul_eq_mul,
    List.length_range]

lemma renderBuffer_length (w h : ℕ) (f : ℕ → ℕ → ℝ) :
    (renderBuffer w h f).length = w * h * 4 := by
  unfold renderBuffer
  have hrow : ∀ j,
      ((List.range w).flatMap fun x => pixelBytes (packPixel w h f x j)).length = w * 4 :=
    fun j => length_flatMap_const (fun x => pixelBytes (packPixel w h f x j)) 4 w
      (fun _ => rfl)
  rw [length_flatMap_const _ (w * 4) h hrow]
  ring

lemma getElem?_flatMap_range {β : Type} (g : ℕ → List β) (k : ℕ)
    (hg : ∀ j, (g j).length = k) :
    ∀ n i c : ℕ, i < n → c < k →
      ((List.range n).flatMap g)[i * k + c]? = (g i)[c]? := by
  intro n
  induction n with
  | zero =>
    intro i c hi _
    exact absurd hi (Nat.not_lt_zero i)
  | succ n ih =>
    intro i c hi hc
    rw [List.range_succ, List.flatMap_append]
    have hlen : ((List.range n).flatMap g).length = n * k := length_flatMap_const g k n hg
    simp only [List.flatMap_cons, List.flatMap_nil, List.append_nil]
    by_cases hin : i < n
    · rw [List.getElem?_append, if_pos]
      · exact ih i c hin hc
      · rw [hlen]
        calc i * k + c < i * k + k := by omega
          _ = (i + 1) * k := by ring
          _ ≤ n * k := Nat.mul_le_mul_right k hin
    · have hieq : i = n := by omega
      subst hieq
      rw [List.getElem?_append, if_neg (by rw [hlen]; exact Nat.not_lt.mpr (Nat.le_add_right _ _))]
      rw [hlen, Nat.add_sub_cancel_left]

lemma renderBuffer_pixel (w h : ℕ) (f : ℕ → ℕ → ℝ) (x y c : ℕ)
    (hx : x < w) (hy : y < h) (hc : c < 4) :
    (renderBuffer w h f)[(y * w + x) * 4 + c]? = (pixelBytes (packPixel w h f x y))[c]? := by
  unfold renderBuffer
  have hrow : ∀ j,
      ((List.range w).flatMap fun x => pixelBytes (packPixel w h f x j)).length = w * 4 :=
    fun j => length_flatMap_const (fun x => pixelBytes (packPixel w h f x j)) 4 w
      (fun _ => rfl)
  have hidx : (y * w + x) * 4 + c = y * (w * 4) + (x * 4 + c) := by ring
  rw [hidx, getElem?_flatMap_range _ (w * 4) hrow h y (x * 4 + c) hy (by omega)]
  rw [getElem?_flatMap_range (fun x => pixelBytes (packPixel w h f x y)) 4
    (fun _ => rfl) w x c hx hc]

lemma rectSDF_def (w h : ℕ) (radius tx ty : ℝ) :
    rectSDF w h radius tx ty =
      Real.sqrt
          (max (|tx - (w : ℝ) / 2| - ((w : ℝ) / 2 - min radius (min (w : ℝ) (h : ℝ) / 2))) 0 ^ 2 +
            max (|ty - (h : ℝ) / 2| - ((h : ℝ) / 2 - min radius (min (w : ℝ) (h : ℝ) / 2))) 0 ^ 2) +
        min
          (max (|tx - (w : ℝ) / 2| - ((w : ℝ) / 2 - min radius (min (w : ℝ) (h : ℝ) / 2)))
            (|ty - (h : ℝ) / 2| - ((h : ℝ) / 2 - min radius (min (w : ℝ) (h : ℝ) / 2)))) 0 -
        min radius (min (w : ℝ) (h : ℝ) / 2) := rfl

lemma rectSDF_100 (tx ty : ℝ) :
    rectSDF 100 100 20 tx ty =
      Real.sqrt (max (|tx - 50| - 30) 0 ^ 2 + max (|ty - 50| - 30) 0 ^ 2) +
        min (max (|tx - 50| - 30) (|ty - 50| - 30)) 0 - 20 := by
  have hmin : min (20 : ℝ) (min (100 : ℝ) 100 / 2) = 20 := by
    rw [min_self]
    exact min_eq_left (by norm_num)
  rw [rectSDF_def]
  push_cast
  rw [hmin]
  norm_num

lemma c8_plateau (perm : ℕ → ℕ) (x y : ℕ) (hx1 : 48 ≤ x) (hx2 : x ≤ 52)
    (hy1 : 48 ≤ y) (hy2 : y ≤ 52) :
    heightMapInit 100 100 20 10 .rect .convex 0 perm x y = 1 := by
  have hx1' : (48 : ℝ) ≤ x := by exact_mod_cast hx1
  have hx2' : (x : ℝ) ≤ 52 := by exact_mod_cast hx2
  have hy1' : (48 : ℝ) ≤ y := by exact_mod_cast hy1
  have hy2' : (y : ℝ) ≤ 52 := by exact_mod_cast hy2
  have hdxa : |(x : ℝ) - 50| - 30 ≤ -28 := by
    have habs : |(x : ℝ) - 50| ≤ 2 := abs_le.mpr ⟨by linarith, by linarith⟩
    linarith
  have hdya : |(y : ℝ) - 50| - 30 ≤ -28 := by
    have habs : |(y : ℝ) - 50| ≤ 2 := abs_le.mpr ⟨by linarith, by linarith⟩
    linarith
  have hdist : rectSDF 100 100 20 (x : ℝ) (y : ℝ) < -10 := by
    rw [rectSDF_100,
      max_eq_right (by linarith : |(x : ℝ) - 50| - 30 ≤ 0),
      max_eq_right (by linarith : |(y : ℝ) - 50| - 30 ≤ 0),
      min_eq_left (max_le (by linarith) (by linarith))]
    have hs : Real.sqrt ((0 : ℝ) ^ 2 + 0 ^ 2) = 0 := by norm_num
    rw [hs]
    linarith [max_le hdxa hdya]
  unfold heightMapInit
  have hc : ¬(0 < (0 : ℝ) ∨ GlassShapeProfile.convex = .liquid) := by simp
  simp only [if_neg hc, heightStored_eq_clamp (by decide : GlassShapeProfile.convex ≠ .liquid)]
  have hda : distAt 100 100 20 .rect (x : ℝ) (y : ℝ) = rectSDF 100 100 20 (x : ℝ) (y : ℝ) := rfl
  rw [hda]
  have hraw : heightRaw .convex (rectSDF 100 100 20 (x : ℝ) (y : ℝ)) 10 = 1 := by
    unfold heightRaw
    rw [if_pos hdist]
  rw [hraw]
  norm_num

lemma c8_corner (perm : ℕ → ℕ) (x y : ℕ) (hx : x ≤ 2) (hy : y ≤ 2) :
    heightMapInit 100 100 20 10 .rect .convex 0 perm x y = 0 := by
  have hx' : (x : ℝ) ≤ 2 := by exact_mod_cast hx
  have hy' : (y : ℝ) ≤ 2 := by exact_mod_cast hy
  have hx0 : (0 : ℝ) ≤ x := Nat.cast_nonneg x
  have hy0 : (0 : ℝ) ≤ y := Nat.cast_nonneg y
  have habsx : |(x : ℝ) - 50| = 50 - x := by
    rw [abs_of_nonpos (by linarith), neg_sub]
  have habsy : |(y : ℝ) - 50| = 50 - y := by
    rw [abs_of_nonpos (by linarith), neg_sub]
  have hdx : (18 : ℝ) ≤ |(x : ℝ) - 50| - 30 := by
    rw [habsx]
    linarith
  have hdy : (18 : ℝ) ≤ |(y : ℝ) - 50| - 30 := by
    rw [habsy]
    linarith
  have hdist : 1 < rectSDF 100 100 20 (x : ℝ) (y : ℝ) := by
    rw [rectSDF_100,
      max_eq_left (by linarith : (0 : ℝ) ≤ |(x : ℝ) - 50| - 30),
      max_eq_left (by linarith : (0 : ℝ) ≤ |(y : ℝ) - 50| - 30),
      min_eq_right (le_max_of_le_left (by linarith : (0 : ℝ) ≤ |(x : ℝ) - 50| - 30))]
    have hsq : (21 : ℝ) < Real.sqrt ((|(x : ℝ) - 50| - 30) ^ 2 + (|(y : ℝ) - 50| - 30) ^ 2) := by
      rw [Real.lt_sqrt (by norm_num)]
      nlinarith [hdx, hdy]
    linarith
  unfold heightMapInit
  have hc : ¬(0 < (0 : ℝ) ∨ GlassShapeProfile.convex = .liquid) := by simp
  simp only [if_neg hc, heightStored_eq_clamp (by decide : GlassShapeProfile.convex ≠ .liquid)]
  have hda : distAt 100 100 20 .rect (x : ℝ) (y : ℝ) = rectSDF 100 100 20 (x : ℝ) (y : ℝ) := rfl
  rw [hda]
  have hraw : heightRaw .convex (rectSDF 100 100 20 (x : ℝ) (y : ℝ)) 10 = 0 := by
    unfold heightRaw
    rw [if_neg (not_lt.mpr (by linarith)), if_pos hdist]
  rw [hraw]
  norm_num

lemma c8_card : (Finset.Icc (-2 : ℤ) 2).card = 5 := by
  rw [Int.card_Icc]
  rfl

lemma c8_row_center (perm : ℕ → ℕ) (y : ℕ) (hy1 : 48 ≤ y) (hy2 : y ≤ 52) :
    blurH 100 2 (heightMapInit 100 100 20 10 .rect .convex 0 perm) 50 y = 1 := by
  unfold blurH
  have hterm : ∀ j ∈ Finset.Icc (-2 : ℤ) 2,
      heightMapInit 100 100 20 10 .rect .convex 0 perm
        (clampIdx 100 (((50 : ℕ) : ℤ) + j)) y = 1 := by
    intro j hj
    rw [Finset.mem_Icc] at hj
    have h1 : 48 ≤ clampIdx 100 (((50 : ℕ) : ℤ) + j) := by
      unfold clampIdx
      omega
    have h2 : clampIdx 100 (((50 : ℕ) : ℤ) + j) ≤ 52 := by
      unfold clampIdx
      omega
    exact c8_plateau perm _ y h1 h2 hy1 hy2
  rw [Finset.sum_congr rfl hterm, Finset.sum_const, c8_card]
  norm_num

lemma c8_row_corner (perm : ℕ → ℕ) (y : ℕ) (hy : y ≤ 2) :
    blurH 100 2 (heightMapInit 100 100 20 10 .rect .convex 0 perm) 0 y = 0 := by
  unfold blurH
  have hterm : ∀ j ∈ Finset.Icc (-2 : ℤ) 2,
      heightMapInit 100 100 20 10 .rect .convex 0 perm
        (clampIdx 100 (((0 : ℕ) : ℤ) + j)) y = 0 := by
    intro j hj
    rw [Finset.mem_Icc] at hj
    have h1 : clampIdx 100 (((0 : ℕ) : ℤ) + j) ≤ 2 := by
      unfold clampIdx
      omega
    exact c8_corner perm _ y h1 hy
  rw [Finset.sum_congr rfl hterm, Finset.sum_const, c8_card]
  norm_num

lemma kernelOf_two : kernelOf 2 = 2 := by
  unfold kernelOf
  have hceil : ⌈(2 : ℝ)⌉ = 2 := by norm_num
  rw [hceil]
  rfl

lemma c8_final_center (perm : ℕ → ℕ) :
    finalHeight 100 100 20 10 .rect .convex 2 0 perm 50 50 = 1 := by
  unfold finalHeight erode
  rw [if_pos (by norm_num : (0 : ℝ) < 2), kernelOf_two]
  unfold blurV
  have hterm : ∀ j ∈ Finset.Icc (-2 : ℤ) 2,
      blurH 100 2 (heightMapInit 100 100 20 10 .rect .convex 0 perm) 50
        (clampIdx 100 (((50 : ℕ) : ℤ) + j)) = 1 := by
    intro j hj
    rw [Finset.mem_Icc] at hj
    have h1 : 48 ≤ clampIdx 100 (((50 : ℕ) : ℤ) + j) := by
      unfold clampIdx
      omega
    have h2 : clampIdx 100 (((50 : ℕ) : ℤ) + j) ≤ 52 := by
      unfold clampIdx
      omega
    exact c8_row_center perm _ h1 h2
  rw [Finset.sum_congr rfl hterm, Finset.sum_const, c8_card]
  norm_num

lemma c8_final_corner (perm : ℕ → ℕ) :
    finalHeight 100 100 20 10 .rect .convex 2 0 perm 0 0 = 0 := by
  unfold finalHeight erode
  rw [if_pos (by norm_num : (0 : ℝ) < 2), kernelOf_two]
  unfold blurV
  have hterm : ∀ j ∈ Finset.Icc (-2 : ℤ) 2,
      blurH 100 2 (heightMapInit 100 100 20 10 .rect .convex 0 perm) 0
        (clampIdx 100 (((0 : ℕ) : ℤ) + j)) = 0 := by
    intro j hj
    rw [Finset.mem_Icc] at hj
    have h1 : clampIdx 100 (((0 : ℕ) : ℤ) + j) ≤ 2 := by
      unfold clampIdx
      omega
    exact c8_row_corner perm _ h1
  rw [Finset.sum_congr rfl hterm, Finset.sum_const, c8_card]
  norm_num

lemma squircleSDF_def (w h : ℕ) (tx ty : ℝ) :
    squircleSDF w h tx ty =
      ((|(tx - (w : ℝ) / 2) / ((w : ℝ) / 2)| ^ 4 + |(ty - (h : ℝ) / 2) / ((h : ℝ) / 2)| ^ 4) ^
            (0.25 : ℝ) - 1) *
        (min (w : ℝ) (h : ℝ) / 2) := rfl

lemma c9_rect_mid (m : ℕ) (hm : 0 < m) (a : ℝ) :
    rectSDF (2 * m) (2 * m) 0 (m : ℝ) a = |a - m| - m := by
  have hM : (0 : ℝ) < m := by exact_mod_cast hm
  have hcast : ((2 * m : ℕ) : ℝ) = 2 * m := by push_cast; ring
  have h2 : (2 * (m : ℝ)) / 2 = m := by ring
  rw [rectSDF_def, hcast, min_self, h2, min_eq_left hM.le]
  simp only [sub_zero]
  rw [sub_self, abs_zero, zero_sub]
  have hdy_ge : -(m : ℝ) ≤ |a - m| - m := by
    have := abs_nonneg (a - (m : ℝ))
    linarith
  rw [max_eq_right (show -(m : ℝ) ≤ 0 by linarith), max_eq_right hdy_ge]
  have hsq : Real.sqrt ((0 : ℝ) ^ 2 + max (|a - (m : ℝ)| - m) 0 ^ 2) =
      max (|a - (m : ℝ)| - m) 0 := by
    rw [show (0 : ℝ) ^ 2 + max (|a - (m : ℝ)| - m) 0 ^ 2 =
      (max (|a - (m : ℝ)| - m) 0) ^ 2 by ring]
    exact Real.sqrt_sq (le_max_right _ _)
  rw [hsq]
  rcases le_total (|a - (m : ℝ)| - m) 0 with hle | hle
  · rw [max_eq_right hle, min_eq_left hle]
    ring
  · rw [max_eq_left hle, min_eq_right hle]
    ring

lemma c9_rect_mid' (m : ℕ) (hm : 0 < m) (a : ℝ) :
    rectSDF (2 * m) (2 * m) 0 a (m : ℝ) = |a - m| - m := by
  have hM : (0 : ℝ) < m := by exact_mod_cast hm
  have hcast : ((2 * m : ℕ) : ℝ) = 2 * m := by push_cast; ring
  have h2 : (2 * (m : ℝ)) / 2 = m := by ring
  rw [rectSDF_def, hcast, min_self, h2, min_eq_left hM.le]
  simp only [sub_zero]
  rw [sub_self, abs_zero, zero_sub]
  have hdy_ge : -(m : ℝ) ≤ |a - m| - m := by
    have := abs_nonneg (a - (m : ℝ))
    linarith
  rw [max_eq_right (show -(m : ℝ) ≤ 0 by linarith), max_eq_left hdy_ge]
  have hsq : Real.sqrt (max (|a - (m : ℝ)| - m) 0 ^ 2 + (0 : ℝ) ^ 2) =
      max (|a - (m : ℝ)| - m) 0 := by
    rw [show max (|a - (m : ℝ)| - m) 0 ^ 2 + (0 : ℝ) ^ 2 =
      (max (|a - (m : ℝ)| - m) 0) ^ 2 by ring]
    exact Real.sqrt_sq (le_max_right _ _)
  rw [hsq]
  rcases le_total (|a - (m : ℝ)| - m) 0 with hle | hle
  · rw [max_eq_right hle, min_eq_left hle]
    ring
  · rw [max_eq_left hle, min_eq_right hle]
    ring

lemma c9_squircle_mid (m : ℕ) (hm : 0 < m) (a : ℝ) :
    squircleSDF (2 * m) (2 * m) (m : ℝ) a = |a - m| - m := by
  have hM : (0 : ℝ) < m := by exact_mod_cast hm
  have hne : (m : ℝ) ≠ 0 := hM.ne'
  have hcast : ((2 * m : ℕ) : ℝ) = 2 * m := by push_cast; ring
  have h2 : (2 * (m : ℝ)) / 2 = m := by ring
  rw [squircleSDF_def, hcast, min_self, h2]
  rw [sub_self, zero_div, abs_zero]
  rw [show ((0 : ℝ)) ^ 4 = 0 by norm_num, zero_add]
  have habs : |(a - (m : ℝ)) / m| = |a - m| / m := by
    rw [abs_div, abs_of_pos hM]
  rw [habs]
  have hpow : ((|a - (m : ℝ)| / m) ^ (4 : ℕ) : ℝ) ^ (0.25 : ℝ) = |a - m| / m := by
    rw [← Real.rpow_natCast (|a - (m : ℝ)| / m) 4, ← Real.rpow_mul (by positivity)]
    norm_num
  rw [hpow]
  field_simp

lemma c9_squircle_mid' (m : ℕ) (hm : 0 < m) (a : ℝ) :
    squircleSDF (2 * m) (2 * m) a (m : ℝ) = |a - m| - m := by
  have hM : (0 : ℝ) < m := by exact_mod_cast hm
  have hne : (m : ℝ) ≠ 0 := hM.ne'
  have hcast : ((2 * m : ℕ) : ℝ) = 2 * m := by push_cast; ring
  have h2 : (2 * (m : ℝ)) / 2 = m := by ring
  rw [squircleSDF_def, hcast, min_self, h2]
  rw [sub_self, zero_div, abs_zero]
  rw [show ((0 : ℝ)) ^ 4 = 0 by norm_num, add_zero]
  have habs : |(a - (m : ℝ)) / m| = |a - m| / m := by
    rw [abs_div, abs_of_pos hM]
  rw [habs]
  have hpow : ((|a - (m : ℝ)| / m) ^ (4 : ℕ) : ℝ) ^ (0.25 : ℝ) = |a - m| / m := by
    rw [← Real.rpow_natCast (|a - (m : ℝ)| / m) 4, ← Real.rpow_mul (by positivity)]
    norm_num
  rw [hpow]
  field_simp

lemma c9_mid_eq (m y : ℕ) (bezel : ℝ) (p : GlassShapeProfile) (perm : ℕ → ℕ)
    (hm : 0 < m) (hp : p ≠ .liquid) :
    heightMapInit (2 * m) (2 * m) 0 bezel .rect p 0 perm m y =
      heightMapInit (2 * m) (2 * m) 0 bezel .squircle p 0 perm m y := by
  unfold heightMapInit
  have hc : ¬(0 < (0 : ℝ) ∨ p = .liquid) := by
    rintro (h | h)
    · exact lt_irrefl 0 h
    · exact hp h
  simp only [if_neg hc, heightStored_eq_clamp hp]
  have hr : distAt (2 * m) (2 * m) 0 .rect (m : ℝ) (y : ℝ) =
      rectSDF (2 * m) (2 * m) 0 (m : ℝ) (y : ℝ) := rfl
  have hs : distAt (2 * m) (2 * m) 0 .squircle (m : ℝ) (y : ℝ) =
      squircleSDF (2 * m) (2 * m) (m : ℝ) (y : ℝ) := rfl
  rw [hr, hs, c9_rect_mid m hm (y : ℝ), c9_squircle_mid m hm (y : ℝ)]

lemma c9_mid_eq' (m y : ℕ) (bezel : ℝ) (p : GlassShapeProfile) (perm : ℕ → ℕ)
    (hm : 0 < m) (hp : p ≠ .liquid) :
    heightMapInit (2 * m) (2 * m) 0 bezel .rect p 0 perm y m =
      heightMapInit (2 * m) (2 * m) 0 bezel .squircle p 0 perm y m := by
  unfold heightMapInit
  have hc : ¬(0 < (0 : ℝ) ∨ p = .liquid) := by
    rintro (h | h)
    · exact lt_irrefl 0 h
    · exact hp h
  simp only [if_neg hc, heightStored_eq_clamp hp]
  have hr : distAt (2 * m) (2 * m) 0 .rect (y : ℝ) (m : ℝ) =
      rectSDF (2 * m) (2 * m) 0 (y : ℝ) (m : ℝ) := rfl
  have hs : distAt (2 * m) (2 * m) 0 .squircle (y : ℝ) (m : ℝ) =
      squircleSDF (2 * m) (2 * m) (y : ℝ) (m : ℝ) := rfl
  rw [hr, hs, c9_rect_mid' m hm (y : ℝ), c9_squircle_mid' m hm (y : ℝ)]

lemma c9_rect_corner : rectSDF 100 100 0 10 10 = -10 := by
  have habs : |(-40 : ℝ)| = 40 := by
    rw [abs_of_nonpos (by norm_num)]
    norm_num
  rw [rectSDF_def]
  push_cast
  norm_num [max_def, min_def, Real.sqrt_zero, habs]

lemma c9_squircle_corner_val :
    squircleSDF 100 100 10 10 = ((512 / 625 : ℝ) ^ (0.25 : ℝ) - 1) * 50 := by
  rw [squircleSDF_def]
  push_cast
  have habs : |((10 : ℝ) - 100 / 2) / (100 / 2)| = 4 / 5 := by
    rw [show ((10 : ℝ) - 100 / 2) / (100 / 2) = -(4 / 5) by norm_num]
    rw [abs_of_nonpos (by norm_num)]
    norm_num
  rw [habs, min_self]
  norm_num

lemma c9_squircle_corner_bounds :
    -10 < squircleSDF 100 100 10 10 ∧ squircleSDF 100 100 10 10 < 0 := by
  have hc1 : (512 / 625 : ℝ) ^ (0.25 : ℝ) < 1 :=
    Real.rpow_lt_one (by norm_num) (by norm_num) (by norm_num)
  have heq : ((256 / 625 : ℝ)) ^ (0.25 : ℝ) = 4 / 5 := by
    rw [show (256 / 625 : ℝ) = (4 / 5 : ℝ) ^ (4 : ℕ) by norm_num]
    rw [← Real.rpow_natCast (4 / 5 : ℝ) 4, ← Real.rpow_mul (by norm_num)]
    norm_num
  have hc4 : (4 / 5 : ℝ) < (512 / 625 : ℝ) ^ (0.25 : ℝ) := by
    calc (4 / 5 : ℝ) = (256 / 625 : ℝ) ^ (0.25 : ℝ) := heq.symm
      _ < (512 / 625 : ℝ) ^ (0.25 : ℝ) :=
        Real.rpow_lt_rpow (by norm_num) (by norm_num) (by norm_num)
  rw [c9_squircle_corner_val]
  constructor
  · nlinarith
  · nlinarith

lemma c9_corner_ne :
    heightMapInit 100 100 0 10 .rect .flat 0 (fun _ => 0) 10 10 ≠
      heightMapInit 100 100 0 10 .squircle .flat 0 (fun _ => 0) 10 10 := by
  have hc : ¬(0 < (0 : ℝ) ∨ GlassShapeProfile.flat = .liquid) := by simp
  have hpf : GlassShapeProfile.flat ≠ .liquid := by decide
  have hrect : heightMapInit 100 100 0 10 .rect .flat 0 (fun _ => 0) 10 10 = 1 := by
    unfold heightMapInit
    simp only [if_neg hc, heightStored_eq_clamp hpf]
    have hd : distAt 100 100 0 .rect (((10 : ℕ)) : ℝ) (((10 : ℕ)) : ℝ) =
        rectSDF 100 100 0 10 10 := by
      push_cast
      rfl
    rw [hd, c9_rect_corner]
    have hraw : heightRaw .flat (-10 : ℝ) 10 = 1 := by
      unfold heightRaw
      rw [if_neg (by norm_num), if_neg (by norm_num)]
      norm_num
    rw [hraw]
    norm_num
  have hb := c9_squircle_corner_bounds
  have hsq : heightMapInit 100 100 0 10 .squircle .flat 0 (fun _ => 0) 10 10 < 1 := by
    unfold heightMapInit
    simp only [if_neg hc, heightStored_eq_clamp hpf]
    have hd : distAt 100 100 0 .squircle (((10 : ℕ)) : ℝ) (((10 : ℕ)) : ℝ) =
        squircleSDF 100 100 10 10 := by
      push_cast
      rfl
    rw [hd]
    have hraw_eq : heightRaw .flat (squircleSDF 100 100 10 10) 10 =
        max 0 (min 1 (-(squircleSDF 100 100 10 10) / 10)) := by
      unfold heightRaw
      rw [if_neg (not_lt.mpr (by linarith [hb.1])), if_neg (not_lt.mpr (by linarith [hb.2]))]
      simp
    rw [hraw_eq]
    have ht1 : max 0 (min 1 (-(squircleSDF 100 100 10 10) / 10)) < 1 :=
      max_lt one_pos (lt_of_le_of_lt (min_le_right _ _) (by nlinarith [hb.1]))
    exact max_lt one_pos (lt_of_le_of_lt (min_le_right _ _) ht1)
  intro heq
  rw [hrect] at heq
  rw [← heq] at hsq
  exact lt_irrefl 1 hsq

lemma toByte_255 : toByte 255 = 255 := by
  unfold toByte
  have h1 : max (0 : ℝ) 255 = 255 := max_eq_right (by norm_num)
  rw [h1, min_self]
  norm_num

/-- A concrete permutation-table such that the liquid surface noise
sampled at pixel (100, 200) — i.e. `noise2d` at (1.5, 3) — is negative. -/
def permC2 : ℕ → ℕ := fun n => if n = 2 ∨ n = 3 then 1 else 0

lemma noise2d_permC2_neg : noise2d permC2 ((3 : ℝ) / 2) (3 : ℝ) = -(1 / 2) := by
  unfold noise2d permC2
  have h3 : Int.toNat 3 = 3 := rfl
  norm_num [fade, lerp, grad, h3]

/-! ### Claims -/

/-- C2 (counterexample): at pixel (100, 200) of a 200×400 liquid-profile
canvas with `bezel = 10` and the table `permC2`, the signed distance is
`-100 < -bezel`, yet the stored pre-erosion height is `0.985 ≠ 1`: the
liquid surface noise pushes the plateau height below `1`. -/
theorem C2_plateau_counterexample :
    distAt 200 400 0 .rect 100 200 < -(10 : ℝ) ∧
      heightMapInit 200 400 0 10 .rect .liquid 0 permC2 100 200 ≠ 1 := by
  have hdist : distAt 200 400 0 .rect (100 : ℝ) (200 : ℝ) = -100 := by
    show rectSDF 200 400 0 100 200 = -100
    unfold rectSDF
    norm_num [max_def, min_def, Real.sqrt_zero]
  constructor
  · rw [hdist]
    norm_num
  · have hval : heightMapInit 200 400 0 10 .rect .liquid 0 permC2 100 200 = 197 / 200 := by
      unfold heightMapInit
      norm_num [noise2d_permC2_neg, hdist, heightStored, heightRaw, max_def, min_def]
    rw [hval]
    norm_num

/-- C2 (amended): for every pixel with `dist < -bezel` the stored
pre-erosion height equals `1.0` for the flat, concave and convex
profiles; for the liquid profile the stored height is
`clamp(1 + noise·0.03)`, which equals `1.0` exactly when the sampled
surface noise is nonnegative. -/
theorem C2_plateau_amended (profile : GlassShapeProfile) (dist bezel nzv : ℝ)
    (hdist : dist < -bezel) :
    (profile ≠ .liquid → heightStored profile dist bezel nzv = 1) ∧
      (profile = .liquid → (heightStored profile dist bezel nzv = 1 ↔ 0 ≤ nzv)) := by
  have hraw : heightRaw profile dist bezel = 1 := by
    unfold heightRaw
    rw [if_pos hdist]
  constructor
  · intro hp
    rw [heightStored_eq_clamp hp, hraw]
    norm_num
  · intro hp
    subst hp
    unfold heightStored
    simp only [hraw]
    rw [if_pos (by norm_num)]
    constructor
    · intro h1
      by_contra hneg
      push_neg at hneg
      have hlt : 1 + nzv * 0.03 < 1 := by nlinarith
      have hmaxlt : max 0 (min 1 (1 + nzv * 0.03)) < 1 :=
        max_lt (by norm_num) (lt_of_le_of_lt (min_le_right _ _) hlt)
      exact absurd (h1 ▸ hmaxlt) (lt_irrefl 1)
    · intro hpos
      have hge : (1 : ℝ) ≤ 1 + nzv * 0.03 := by nlinarith
      rw [min_eq_left hge, max_eq_right (by norm_num : (0 : ℝ) ≤ 1)]

theorem C2_plateau_amended_witness :
    (-20 : ℝ) < -(10 : ℝ) ∧
      ((GlassShapeProfile.flat ≠ .liquid → heightStored .flat (-20) 10 37 = 1) ∧
        (GlassShapeProfile.flat = .liquid → (heightStored .flat (-20) 10 37 = 1 ↔ (0 : ℝ) ≤ 37))) :=
  ⟨by norm_num, C2_plateau_amended .flat (-20) 10 37 (by norm_num)⟩

/-- C3 (counterexample): at pixel (0, 16) of a 100×100 rect canvas with
`radius = 20`, `bezel = 10`, flat profile, the signed distance is
`sqrt 416 - 20 ∈ (0, 1]`, yet the stored height is `0`, not positive:
in the band just outside the boundary `t` clamps to `0`, so only the
concave profile receives positive height there. -/
theorem C3_outside_counterexample :
    (0 < distAt 100 100 20 .rect 0 16 ∧ distAt 100 100 20 .rect 0 16 ≤ 1) ∧
      heightMapInit 100 100 20 10 .rect .flat 0 (fun _ => 0) 0 16 = 0 := by
  have h20 : (20 : ℝ) < Real.sqrt 416 := by
    rw [Real.lt_sqrt (by norm_num)]
    norm_num
  have h21 : Real.sqrt 416 ≤ 21 := by
    rw [Real.sqrt_le_left (by norm_num)]
    norm_num
  have habs0 : |(0 : ℝ) - 50| = 50 := by
    rw [abs_of_nonpos (by norm_num)]
    norm_num
  have habs16 : |(16 : ℝ) - 50| = 34 := by
    rw [abs_of_nonpos (by norm_num)]
    norm_num
  have habsa : |(-50 : ℝ)| = 50 := by
    rw [abs_of_nonpos (by norm_num)]
    norm_num
  have habsb : |(-34 : ℝ)| = 34 := by
    rw [abs_of_nonpos (by norm_num)]
    norm_num
  have hdist : distAt 100 100 20 .rect (0 : ℝ) (16 : ℝ) = Real.sqrt 416 - 20 := by
    show rectSDF 100 100 20 0 16 = Real.sqrt 416 - 20
    unfold rectSDF
    norm_num [habs0, habs16, habsa, habsb, max_def, min_def]
  refine ⟨⟨by rw [hdist]; linarith, by rw [hdist]; linarith⟩, ?_⟩
  have hraw : heightRaw .flat (Real.sqrt 416 - 20) 10 = 0 := by
    unfold heightRaw
    rw [if_neg (not_lt.mpr (by linarith)), if_neg (not_lt.mpr (by linarith))]
    have hneg : -(Real.sqrt 416 - 20) / 10 ≤ 0 :=
      div_nonpos_of_nonpos_of_nonneg (by linarith) (by norm_num)
    have hmin : min 1 (-(Real.sqrt 416 - 20) / 10) = -(Real.sqrt 416 - 20) / 10 :=
      min_eq_right (le_trans hneg zero_le_one)
    have hmax : max 0 (-(Real.sqrt 416 - 20) / 10) = 0 := max_eq_left hneg
    simp only [hmin, hmax]
    norm_num
  have hpf : GlassShapeProfile.flat ≠ .liquid := by decide
  unfold heightMapInit
  have hc : ¬(0 < (0 : ℝ) ∨ GlassShapeProfile.flat = .liquid) := by simp
  simp only [if_neg hc, heightStored_eq_clamp hpf]
  push_cast
  rw [hdist, hraw]
  norm_num

/-- C3 (amended): for every profile, `dist > 1.0` gives height `0`; but in
the band `0 < dist ≤ 1.0` just outside the boundary the easing parameter
`t` clamps to `0`, so the stored height is positive only for the concave
profile (where it is `1`); the flat, convex and liquid profiles store `0`. -/
theorem C3_outside_amended (dist bezel nzv : ℝ) (hbez : 0 < bezel) :
    (1 < dist → ∀ p, heightStored p dist bezel nzv = 0) ∧
      (0 < dist → dist ≤ 1 →
        heightStored .concave dist bezel nzv = 1 ∧
          heightStored .flat dist bezel nzv = 0 ∧
          heightStored .convex dist bezel nzv = 0 ∧
          heightStored .liquid dist bezel nzv = 0) := by
  constructor
  · intro h1 p
    have hga : ¬(dist < -bezel) := not_lt.mpr (by nlinarith)
    norm_num [heightStored, heightRaw, hga, h1]
  · intro h0 hle
    have hga : ¬(dist < -bezel) := not_lt.mpr (by nlinarith)
    have hgb : ¬(1 < dist) := not_lt.mpr hle
    have hneg : -dist / bezel ≤ 0 :=
      div_nonpos_of_nonpos_of_nonneg (by linarith) hbez.le
    have ht : max 0 (min 1 (-dist / bezel)) = 0 :=
      max_eq_left (le_trans (min_le_right _ _) hneg)
    have hrawf : heightRaw .flat dist bezel = 0 := by
      unfold heightRaw
      rw [if_neg hga, if_neg hgb]
      simp only [ht]
      simp
    have hrawc : heightRaw .concave dist bezel = 1 := by
      unfold heightRaw
      rw [if_neg hga, if_neg hgb]
      simp only [ht]
      simp
    have hrawx : heightRaw .convex dist bezel = 0 := by
      unfold heightRaw
      rw [if_neg hga, if_neg hgb]
      simp only [ht]
      simp
    have hrawl : heightRaw .liquid dist bezel = 0 := by
      unfold heightRaw
      rw [if_neg hga, if_neg hgb]
      simp only [ht]
      simp
    refine ⟨?_, ?_, ?_, ?_⟩
    · rw [heightStored_eq_clamp (by decide), hrawc]
      norm_num
    · rw [heightStored_eq_clamp (by decide), hrawf]
      norm_num
    · rw [heightStored_eq_clamp (by decide), hrawx]
      norm_num
    · unfold heightStored
      simp only [hrawl]
      rw [if_neg (by norm_num)]
      norm_num

theorem C3_outside_amended_witness :
    ((0 : ℝ) < 10 ∧ heightStored .flat 2 10 0 = 0) ∧
      ((0 : ℝ) < 10 ∧ heightStored .concave (1 / 2) 10 0 = 1) :=
  ⟨⟨by norm_num, (C3_outside_amended 2 10 0 (by norm_num)).1 (by norm_num) .flat⟩,
    ⟨by norm_num, ((C3_outside_amended (1 / 2) 10 0 (by norm_num)).2 (by norm_num)
      (by norm_num)).1⟩⟩

/-- C6: when `tension ≤ 0` the erosion filter is the identity: the height
field after the (skipped) erosion stage is identical to the height field
produced by the height profiler, for every input. -/
theorem C6_erosion_skipped_identity (w h : ℕ) (tension : ℝ) (f : ℕ → ℕ → ℝ)
    (ht : tension ≤ 0) : erode w h tension f = f := by
  unfold erode
  rw [if_neg (not_lt.mpr ht)]

theorem C6_erosion_skipped_identity_witness :
    (0 : ℝ) ≤ 0 ∧ erode 3 3 (0 : ℝ) (fun _ _ => 1 / 2) = (fun _ _ => 1 / 2) :=
  ⟨le_refl 0, C6_erosion_skipped_identity 3 3 0 (fun _ _ => 1 / 2) (le_refl 0)⟩

/-- C7: every division in the per-pixel math has a nonzero denominator:
the normal length `len = sqrt(dx² + dy² + 1)` is always at least `1`, and
the blur weight (the number of kernel taps) equals `2·kernel + 1 ≥ 3`
where `kernel = max(1, ⌈tension⌉)`. -/
theorem C7_divisions_total :
    (∀ dx dy : ℝ, 1 ≤ nlen dx dy) ∧
      (∀ tension : ℝ,
        (((Finset.Icc (-(kernelOf tension)) (kernelOf tension)).card : ℤ)) =
            2 * kernelOf tension + 1 ∧
          3 ≤ 2 * kernelOf tension + 1) := by
  constructor
  · intro dx dy
    unfold nlen
    have h1 : 0 ≤ dx * dx + dy * dy + 1 := by
      nlinarith [mul_self_nonneg dx, mul_self_nonneg dy]
    rw [Real.le_sqrt (by norm_num) h1]
    nlinarith [mul_self_nonneg dx, mul_self_nonneg dy]
  · intro tension
    refine ⟨card_Icc_kernel tension, ?_⟩
    have := kernelOf_pos tension
    omega

/-- C5: every value of the height field lies in `[0, 1]` at every stage:
the profiler clamps before storing, and both erosion passes (edge-clamped
box-blur averages) preserve membership in `[0, 1]`. -/
theorem C5_height_bounds (w h : ℕ) (radius bezel : ℝ) (shape : GlassShape)
    (profile : GlassShapeProfile) (tension warp : ℝ) (perm : ℕ → ℕ) (x y : ℕ) :
    (0 ≤ heightMapInit w h radius bezel shape profile warp perm x y ∧
        heightMapInit w h radius bezel shape profile warp perm x y ≤ 1) ∧
      (0 ≤ blurH w (kernelOf tension)
          (heightMapInit w h radius bezel shape profile warp perm) x y ∧
        blurH w (kernelOf tension)
          (heightMapInit w h radius bezel shape profile warp perm) x y ≤ 1) ∧
      (0 ≤ finalHeight w h radius bezel shape profile tension warp perm x y ∧
        finalHeight w h radius bezel shape profile tension warp perm x y ≤ 1) := by
  refine ⟨heightMapInit_mem w h radius bezel shape profile warp perm x y, ?_, ?_⟩
  · exact blurH_mem w tension _ (heightMapInit_mem w h radius bezel shape profile warp perm) x y
  · exact erode_mem w h tension _ (heightMapInit_mem w h radius bezel shape profile warp perm) x y

/-- C4: the alpha byte of every output pixel is either `0` or `255`, and
it is `255` exactly when the final (post-erosion) height at that pixel
exceeds `0.01`. -/
theorem C4_alpha_binary (w h : ℕ) (radius bezel : ℝ) (shape : GlassShape)
    (profile : GlassShapeProfile) (tension warp : ℝ) (perm : ℕ → ℕ) (x y : ℕ) :
    ((packPixel w h (finalHeight w h radius bezel shape profile tension warp perm) x y).a = 0 ∨
      (packPixel w h (finalHeight w h radius bezel shape profile tension warp perm) x y).a = 255) ∧
      ((packPixel w h (finalHeight w h radius bezel shape profile tension warp perm) x y).a = 255 ↔
        0.01 < finalHeight w h radius bezel shape profile tension warp perm x y) := by
  have ha : (packPixel w h (finalHeight w h radius bezel shape profile tension warp perm) x y).a =
      if 0.01 < finalHeight w h radius bezel shape profile tension warp perm x y
        then 255 else 0 := rfl
  rw [ha]
  split
  · exact ⟨Or.inr rfl, by simp [*]⟩
  · refine ⟨Or.inl rfl, ?_⟩
    constructor
    · intro hz
      exact absurd hz (by norm_num)
    · intro hlt
      exact absurd hlt (by assumption)

/-- C1: the synthesizer returns the empty result exactly when a dimension
is non-positive, and otherwise a buffer of exactly `width*height*4` bytes. -/
theorem C1_empty_iff_and_size (width height : ℤ) (radius bezel : ℝ) (shape : GlassShape)
    (profile : GlassShapeProfile) (tension warp : ℝ) (perm : ℕ → ℕ) :
    (generateGlassMaps width height radius bezel shape profile tension warp perm = none ↔
        width ≤ 0 ∨ height ≤ 0) ∧
      (generateGlassMaps width height radius bezel shape profile tension warp perm).map
          List.length =
        if width ≤ 0 ∨ height ≤ 0 then none
        else some (width.toNat * height.toNat * 4) := by
  unfold generateGlassMaps
  by_cases hcond : width ≤ 0 ∨ height ≤ 0
  · simp [hcond]
  · simp [hcond, renderBuffer_length]

/-- C8: for `synthesize(100, 100, cornerRadius=20, bezel=10, rect, convex,
tension=2, warp=0)` the output pixel at (50, 50) has alpha byte 255 and
blue byte 255, and the pixel at (0, 0) has alpha byte 0 — for every
permutation table. -/
theorem C8_end_to_end (perm : ℕ → ℕ) :
    ∃ buf, generateGlassMaps 100 100 20 10 .rect .convex 2 0 perm = some buf ∧
      buf[(50 * 100 + 50) * 4 + 3]? = some 255 ∧
      buf[(50 * 100 + 50) * 4 + 2]? = some 255 ∧
      buf[(0 * 100 + 0) * 4 + 3]? = some 0 := by
  refine ⟨renderBuffer 100 100 (finalHeight 100 100 20 10 .rect .convex 2 0 perm),
    ?_, ?_, ?_, ?_⟩
  · unfold generateGlassMaps
    rw [if_neg (by decide)]
    rfl
  · rw [renderBuffer_pixel 100 100 _ 50 50 3 (by norm_num) (by norm_num) (by norm_num)]
    have hb : (pixelBytes (packPixel 100 100
        (finalHeight 100 100 20 10 .rect .convex 2 0 perm) 50 50))[3]? =
        some (if 0.01 < finalHeight 100 100 20 10 .rect .convex 2 0 perm 50 50
          then (255 : ℤ) else 0) := rfl
    rw [hb, c8_final_center perm, if_pos (by norm_num : (0.01 : ℝ) < 1)]
  · rw [renderBuffer_pixel 100 100 _ 50 50 2 (by norm_num) (by norm_num) (by norm_num)]
    have hb : (pixelBytes (packPixel 100 100
        (finalHeight 100 100 20 10 .rect .convex 2 0 perm) 50 50))[2]? =
        some (toByte (finalHeight 100 100 20 10 .rect .convex 2 0 perm 50 50 * 255)) := rfl
    rw [hb, c8_final_center perm, one_mul, toByte_255]
  · rw [renderBuffer_pixel 100 100 _ 0 0 3 (by norm_num) (by norm_num) (by norm_num)]
    have hb : (pixelBytes (packPixel 100 100
        (finalHeight 100 100 20 10 .rect .convex 2 0 perm) 0 0))[3]? =
        some (if 0.01 < finalHeight 100 100 20 10 .rect .convex 2 0 perm 0 0
          then (255 : ℤ) else 0) := rfl
    rw [hb, c8_final_corner perm, if_neg (by norm_num : ¬((0.01 : ℝ) < 0))]

/-- C9: for a square canvas with zero corner radius (warp 0, non-liquid
profile) the rect and squircle variants agree at every pixel of the
vertical midline `x = m` and the horizontal midline `y = m` (the lines
through the shape center), yet differ at a pixel near a corner (the
concrete 100×100 flat instance diverges at pixel (10, 10)). -/
theorem C9_squircle_rect_divergence :
    (∀ (m y : ℕ) (bezel : ℝ) (p : GlassShapeProfile) (perm : ℕ → ℕ),
      0 < m → p ≠ .liquid →
        heightMapInit (2 * m) (2 * m) 0 bezel .rect p 0 perm m y =
            heightMapInit (2 * m) (2 * m) 0 bezel .squircle p 0 perm m y ∧
          heightMapInit (2 * m) (2 * m) 0 bezel .rect p 0 perm y m =
            heightMapInit (2 * m) (2 * m) 0 bezel .squircle p 0 perm y m) ∧
      heightMapInit 100 100 0 10 .rect .flat 0 (fun _ => 0) 10 10 ≠
        heightMapInit 100 100 0 10 .squircle .flat 0 (fun _ => 0) 10 10 := by
  refine ⟨fun m y bezel p perm hm hp => ⟨?_, ?_⟩, c9_corner_ne⟩
  · exact c9_mid_eq m y bezel p perm hm hp
  · exact c9_mid_eq' m y bezel p perm hm hp

theorem C9_squircle_rect_divergence_witness :
    ((0 : ℕ) < 50 ∧ GlassShapeProfile.flat ≠ .liquid) ∧
      heightMapInit (2 * 50) (2 * 50) 0 10 .rect .flat 0 (fun _ => 0) 50 7 =
        heightMapInit (2 * 50) (2 * 50) 0 10 .squircle .flat 0 (fun _ => 0) 50 7 :=
  ⟨⟨by norm_num, by decide⟩,
    (C9_squircle_rect_divergence.1 50 7 10 .flat (fun _ => 0) (by norm_num) (by decide)).1⟩

/-- C10: with `warp = 0` and a non-liquid profile the output is
independent of the permutation table, i.e. two calls with identical
parameters but different (freshly randomized) tables produce identical
pixel buffers: the table is never read on that path. -/
theorem C10_deterministic_without_noise (width height : ℤ) (radius bezel : ℝ)
    (shape : GlassShape) (profile : GlassShapeProfile) (tension : ℝ)
    (perm₁ perm₂ : ℕ → ℕ) (hp : profile ≠ .liquid) :
    generateGlassMaps width height radius bezel shape profile tension 0 perm₁ =
      generateGlassMaps width height radius bezel shape profile tension 0 perm₂ := by
  have hmap : ∀ (w h : ℕ),
      heightMapInit w h radius bezel shape profile 0 perm₁ =
        heightMapInit w h radius bezel shape profile 0 perm₂ := by
    intro w h
    funext x y
    unfold heightMapInit
    have hc : ¬(0 < (0 : ℝ) ∨ profile = .liquid) := by
      rintro (hlt | heq)
      · exact lt_irrefl 0 hlt
      · exact hp heq
    simp only [if_neg hc, heightStored_eq_clamp hp]
  unfold generateGlassMaps finalHeight
  rw [hmap]

theorem C10_deterministic_without_noise_witness :
    GlassShapeProfile.convex ≠ GlassShapeProfile.liquid ∧
      generateGlassMaps 4 4 1 1 .rect .convex 2 0 (fun _ => 0) =
        generateGlassMaps 4 4 1 1 .rect .convex 2 0 (fun _ => 5) :=
  ⟨by decide,
    C10_deterministic_without_noise 4 4 1 1 .rect .convex 2 (fun _ => 0) (fun _ => 5)
      (by decide)⟩

end

end LiquidGlass
